import Mathlib

/-!
Shallow embedding of `mmap-buffer` (`src/lib.rs`), a fixed-size buffer of
Pod elements backed by a memory-mapped file.

Modelling conventions:
- A Pod element type `T` is characterised by its byte size `sz`; an element
  value is its byte pattern, a `List Nat` of length `sz` (bytemuck's `Pod`
  guarantees every byte pattern of the right length is a valid value, and
  values carry no identity beyond their bytes).  `T::zeroed()` is
  `List.replicate sz 0`.
- The operating system state visible to the library is `FS`: the file
  contents per path, plus the set of paths whose advisory exclusive lock is
  currently held by a live `BackedBuffer`.
- `memmap2` mappings are page aligned, so bytemuck's alignment branch of
  `try_cast_slice` can never fire for the mapped region; the validation is
  modelled as the length-divisibility check alone.
- The mapping is `MAP_SHARED`: element writes go to the page cache and are
  observable in the file once the buffer is dropped; the model keeps
  mutations in `BackedBuffer.mmap` and flushes them to `FS` in `dropBuffer`.
- `usize` arithmetic is modelled on a 64-bit platform: the unchecked
  multiplication `capacity * size_of::<T>()` in `BackedBuffer::new` wraps
  modulo `2 ^ 64`.
- `File::allocate` extends the file but (per the portability concern the
  crate addresses) is not assumed to zero the new bytes: the extended
  region's content is an arbitrary `junk` function, later overwritten by the
  explicit zero-fill loop.  On the modelled platform (64-bit Linux) fs2
  implements `allocate` with `posix_fallocate`, which deterministically
  fails with EINVAL when the requested length is zero; `new` therefore
  fails with a creation error when the (wrapped) byte length
  `capacity * size_of::<T>()` is zero.  Environment-dependent allocate
  failures (e.g. insufficient disk space) are abstracted as success, like
  the other fallible I/O calls.
-/

namespace MmapBuffer

/-- Width of `usize` on the modelled 64-bit platform. -/
def USIZE : Nat := 2 ^ 64

/-- The native (wrapping) `usize` multiplication used for
`capacity * std::mem::size_of::<T>()` in `BackedBuffer::new`. -/
def usizeMul (a b : Nat) : Nat := (a * b) % USIZE

/-- Error outcomes of the fallible constructors (`Box<dyn Error>` in the
source, discriminated by which call failed). -/
inductive BufError where
  /-- `OpenOptions::open` failed on `load` (file missing or unopenable). -/
  | openFailure
  /-- file creation, `allocate`, or a zero-fill `write_all` failed. -/
  | creationFailure
  /-- `fs2::FileExt::try_lock_exclusive` failed: another live instance
  holds the advisory lock. -/
  | lockUnavailable
  /-- `bytemuck::try_cast_slice` failed: mapped byte length is not a
  multiple of the element size. -/
  | layoutMismatch
deriving DecidableEq, Repr

/-- Operating-system state: file contents per path (later writes shadow
earlier entries) and the set of advisory-locked paths. -/
structure FS where
  files : List (String × List Nat)
  locked : List String
deriving DecidableEq, Repr

/-- Current content of the file at `p`, if it exists. -/
def FS.read (fs : FS) (p : String) : Option (List Nat) :=
  (fs.files.find? (fun e => e.1 == p)).map (fun e => e.2)

/-- Replace (or create) the file at `p` with content `bs`. -/
def FS.write (fs : FS) (p : String) (bs : List Nat) : FS :=
  { fs with files := (p, bs) :: fs.files }

/-- Whether the advisory exclusive lock on `p` is currently held. -/
def FS.isLocked (fs : FS) (p : String) : Bool :=
  decide (p ∈ fs.locked)

/-- Acquire the advisory exclusive lock on `p`. -/
def FS.lock (fs : FS) (p : String) : FS :=
  { fs with locked := p :: fs.locked }

/-- Release the advisory exclusive lock on `p` (`fs2::FileExt::unlock`, or
the implicit release when the file handle is closed). -/
def FS.unlock (fs : FS) (p : String) : FS :=
  { fs with locked := fs.locked.filter (fun q => !(q == p)) }

/-- A live `BackedBuffer<T>`: the mapped bytes (`mmap: MmapMut`) and the
path of the owned file handle (`file: Option<File>`, which identifies the
held lock). -/
structure BackedBuffer where
  mmap : List Nat
  filePath : String
deriving DecidableEq, Repr

/-- Fuel-indexed worker for `chunks` (structural recursion so that the
kernel can evaluate it; the fuel is always at least the list length). -/
def chunksGo (sz : Nat) : Nat → List Nat → List (List Nat)
  | _, [] => []
  | 0, _ :: _ => []
  | fuel + 1, b :: bs =>
    if sz = 0 then []
    else (b :: bs).take sz :: chunksGo sz fuel ((b :: bs).drop sz)

/-- Split a byte region into consecutive `sz`-byte element patterns: the
typed view `&[T]` that `bytemuck::try_cast_slice` produces over the bytes. -/
def chunks (sz : Nat) (bytes : List Nat) : List (List Nat) :=
  chunksGo sz bytes.length bytes

/-- Concatenate element byte patterns back into the underlying byte region
(the inverse view used when a typed write lands in the mapping). -/
def joinB : List (List Nat) → List Nat
  | [] => []
  | x :: xs => x ++ joinB xs

/-- `bytemuck::try_cast_slice::<u8, T>` over a page-aligned region: succeeds
with the typed view exactly when the byte length is a multiple of the
element size. -/
def castSlice (sz : Nat) (bytes : List Nat) : Option (List (List Nat)) :=
  if bytes.length % sz = 0 then some (chunks sz bytes) else none

/-- `BackedBuffer::from_file`, for a file at `path` whose current content is
`bytes`.  Mirrors the source order: `try_lock_exclusive` first, then map the
full current length and run `try_cast_slice` validation.  When validation
fails the local `File` is dropped, which releases the just-acquired lock, so
the state is unchanged on every error path. -/
def fromFile (sz : Nat) (fs : FS) (path : String) (bytes : List Nat) :
    Except BufError (BackedBuffer × FS) :=
  if fs.isLocked path then .error .lockUnavailable
  else
    match castSlice sz bytes with
    | some _ => .ok ({ mmap := bytes, filePath := path }, fs.lock path)
    | none => .error .layoutMismatch

/-- `BackedBuffer::load`: open the existing file read+write without
resizing, then `from_file`. -/
def load (sz : Nat) (fs : FS) (path : String) :
    Except BufError (BackedBuffer × FS) :=
  match fs.read path with
  | none => .error .openFailure
  | some bytes => fromFile sz fs path bytes

/-- Fuel-indexed worker for `zeroFill` (structural recursion; each loop
iteration writes at least one byte, so `size` bytes of fuel suffice). -/
def zeroFillGo : Nat → Nat → List Nat
  | _, 0 => []
  | 0, _ + 1 => []
  | fuel + 1, n + 1 =>
    List.replicate (min (n + 1) 4096) 0 ++
      zeroFillGo fuel (n + 1 - min (n + 1) 4096)

/-- Bytes written by the zero-fill loop of `BackedBuffer::new`: while
`size > 0`, write `min size 4096` zero bytes (one `BLOCK` slice) and
subtract the block from `size`. -/
def zeroFill (n : Nat) : List Nat :=
  zeroFillGo n n

/-- Overwrite `content` starting at byte offset `pos` with `data`
(`Write::write_all` through the file cursor). -/
def writeAt (content : List Nat) (pos : Nat) (data : List Nat) : List Nat :=
  content.take pos ++ data ++ content.drop (pos + data.length)

/-- `BackedBuffer::new`: open with create+truncate (file now exists, empty),
compute `capacity_bytes` with the native wrapping multiplication, seek to 0,
`allocate(capacity_bytes)` (`posix_fallocate`: EINVAL when the length is
zero, otherwise extending with filesystem-dependent bytes `junk`),
overwrite from offset 0 with the block zero-fill loop, then `from_file`. -/
def new (sz cap : Nat) (fs : FS) (path : String) (junk : Nat → Nat) :
    Except BufError (BackedBuffer × FS) :=
  let capacityBytes := usizeMul cap sz
  if capacityBytes = 0 then .error .creationFailure
  else
    let afterAlloc := (List.range capacityBytes).map junk
    let content := writeAt afterAlloc 0 (zeroFill capacityBytes)
    let fs1 := fs.write path content
    fromFile sz fs1 path content

/-- `BackedBuffer::copy_from_slice`: `new(slice.len(), path)`, then copy the
slice over the whole mutable typed view (`<[T]>::copy_from_slice` through
`deref_mut`), i.e. the mapped bytes become the concatenation of the slice's
element patterns. -/
def copyFromSlice (sz : Nat) (slice : List (List Nat)) (fs : FS)
    (path : String) (junk : Nat → Nat) : Except BufError (BackedBuffer × FS) :=
  match new sz slice.length fs path junk with
  | .error e => .error e
  | .ok (buf, fs1) => .ok ({ buf with mmap := joinB slice }, fs1)

/-- The typed element view `&[T]` produced by `Deref for BackedBuffer`
(`try_cast_slice(&self.mmap[..]).unwrap()`). -/
def derefBB (sz : Nat) (buf : BackedBuffer) : List (List Nat) :=
  chunks sz buf.mmap

/-- The re-validation `Deref`/`DerefMut` perform on every access; `none`
models the `unwrap` panic branch. -/
def derefChecked (sz : Nat) (buf : BackedBuffer) : Option (List (List Nat)) :=
  castSlice sz buf.mmap

/-- `buf[i] = v` through `DerefMut`: element `i` of the typed view is
replaced and the mapping holds the re-joined bytes. -/
def setIndex (sz : Nat) (buf : BackedBuffer) (i : Nat) (v : List Nat) :
    BackedBuffer :=
  { buf with mmap := joinB ((chunks sz buf.mmap).set i v) }

/-- `buf[i]` through `Deref`: element `i` of the typed view. -/
def getIndex (sz : Nat) (buf : BackedBuffer) (i : Nat) : List Nat :=
  (chunks sz buf.mmap).getD i []

/-- A sequence of indexed element writes, applied left to right. -/
def applyWrites (sz : Nat) (ws : List (Nat × List Nat)) (buf : BackedBuffer) :
    BackedBuffer :=
  ws.foldl (fun b w => setIndex sz b w.1 w.2) buf

/-- `Drop for BackedBuffer`: the `MAP_SHARED` mapping's bytes are in the
file (modelled as a flush here), the lock is released, and the handle is
closed. -/
def dropBuffer (buf : BackedBuffer) (fs : FS) : FS :=
  (fs.write buf.filePath buf.mmap).unlock buf.filePath

/-- The `Buffer<T>` tagged union: `Disk(BackedBuffer<T>)` or
`Memory(Vec<T>)`. -/
inductive Buffer where
  | disk (b : BackedBuffer)
  | memory (v : List (List Nat))
deriving DecidableEq, Repr

/-- `Deref for Buffer`: dispatch to the active variant's slice view. -/
def Buffer.deref (sz : Nat) : Buffer → List (List Nat)
  | .disk b => derefBB sz b
  | .memory v => v

/-- `AsRef<[T]> for Buffer`: same two-way dispatch as `Deref`. -/
def Buffer.asRefView (sz : Nat) : Buffer → List (List Nat)
  | .disk b => derefBB sz b
  | .memory v => v

/-- `Buffer::new_in_memory(capacity)`: `vec![T::zeroed(); capacity]`. -/
def Buffer.newInMemory (sz cap : Nat) : Buffer :=
  .memory (List.replicate cap (List.replicate sz 0))

/-- `Buffer::new_on_disk`: wrap `BackedBuffer::new` in the `Disk` variant. -/
def Buffer.newOnDisk (sz cap : Nat) (fs : FS) (path : String)
    (junk : Nat → Nat) : Except BufError (Buffer × FS) :=
  match new sz cap fs path junk with
  | .error e => .error e
  | .ok (b, fs1) => .ok (.disk b, fs1)

/-- `buf[i] = v` on a `Buffer`, through `DerefMut`'s dispatch. -/
def Buffer.setIndexB (sz : Nat) : Buffer → Nat → List Nat → Buffer
  | .disk b, i, v => .disk (setIndex sz b i v)
  | .memory m, i, v => .memory (m.set i v)

/-- A sequence of indexed element writes on a `Buffer`. -/
def Buffer.applyWritesB (sz : Nat) (ws : List (Nat × List Nat)) (b : Buffer) :
    Buffer :=
  ws.foldl (fun b w => Buffer.setIndexB sz b w.1 w.2) b

/-- Last value written to index `i` by the write sequence, if any. -/
def lastWritten (ws : List (Nat × List Nat)) (i : Nat) : Option (List Nat) :=
  ws.foldl (fun acc w => if w.1 = i then some w.2 else acc) none

/-- Element-level effect of a write sequence on the typed view. -/
def elsApply (ws : List (Nat × List Nat)) (els : List (List Nat)) :
    List (List Nat) :=
  ws.foldl (fun a w => a.set w.1 w.2) els

section Lemmas

lemma zeroFillGo_eq : ∀ fuel n : Nat, n ≤ fuel →
    zeroFillGo fuel n = List.replicate n 0 := by
  intro fuel
  induction fuel with
  | zero =>
    intro n h
    have : n = 0 := Nat.le_zero.mp h
    rw [this]
    rfl
  | succ f ih =>
    intro n h
    cases n with
    | zero => rfl
    | succ m =>
      show List.replicate (min (m + 1) 4096) 0 ++
          zeroFillGo f (m + 1 - min (m + 1) 4096) = _
      have hpos : 0 < min (m + 1) 4096 := by omega
      rw [ih (m + 1 - min (m + 1) 4096) (by omega), ← List.replicate_add]
      congr 1
      have : min (m + 1) 4096 ≤ m + 1 := Nat.min_le_left _ _
      omega

lemma zeroFill_eq (n : Nat) : zeroFill n = List.replicate n 0 :=
  zeroFillGo_eq n n (Nat.le_refl n)

lemma writeAt_zero (content data : List Nat)
    (h : content.length = data.length) : writeAt content 0 data = data := by
  simp [writeAt, List.drop_eq_nil_of_le, h]

lemma joinB_length (sz : Nat) :
    ∀ l : List (List Nat), (∀ x ∈ l, x.length = sz) →
      (joinB l).length = l.length * sz := by
  intro l
  induction l with
  | nil => intro _; simp [joinB]
  | cons x xs ih =>
    intro h
    simp only [joinB, List.length_append, List.length_cons]
    rw [h x (List.mem_cons_self x xs), ih (fun y hy => h y (List.mem_cons_of_mem x hy))]
    ring

lemma joinB_replicate (c sz : Nat) :
    joinB (List.replicate c (List.replicate sz 0)) =
      List.replicate (c * sz) 0 := by
  induction c with
  | zero => simp [joinB]
  | succ m ih =>
    rw [List.replicate_succ, joinB, ih, ← List.replicate_add]
    congr 1
    ring

lemma chunksGo_fuel (sz : Nat) : ∀ fuel (bytes : List Nat),
    bytes.length ≤ fuel →
    chunksGo sz fuel bytes = chunksGo sz bytes.length bytes := by
  intro fuel
  induction fuel using Nat.strong_induction_on with
  | _ fuel ih =>
    intro bytes h
    cases fuel with
    | zero =>
      have : bytes.length = 0 := Nat.le_zero.mp h
      rw [this]
    | succ f =>
      cases bytes with
      | nil => rfl
      | cons b bs =>
        by_cases hsz : sz = 0
        · show (if sz = 0 then _ else _) = (if sz = 0 then _ else _)
          rw [if_pos hsz, if_pos hsz]
        · show (if sz = 0 then _ else _) = (if sz = 0 then _ else _)
          rw [if_neg hsz, if_neg hsz]
          congr 1
          have hdrop : ((b :: bs).drop sz).length ≤ bs.length := by
            simp only [List.length_drop, List.length_cons]
            omega
          have hlen : bs.length ≤ f := Nat.le_of_succ_le_succ h
          rw [ih f (Nat.lt_succ_self f) _ (le_trans hdrop hlen),
            ih bs.length (Nat.lt_succ_of_le hlen) _ hdrop]

lemma chunks_nil (sz : Nat) : chunks sz [] = [] := rfl

lemma chunks_cons (sz : Nat) (b : Nat) (bs : List Nat) (h : sz ≠ 0) :
    chunks sz (b :: bs) =
      (b :: bs).take sz :: chunks sz ((b :: bs).drop sz) := by
  show chunksGo sz (b :: bs).length (b :: bs) = _
  rw [List.length_cons]
  show (if sz = 0 then _ else _) = _
  rw [if_neg h]
  congr 1
  exact chunksGo_fuel sz bs.length ((b :: bs).drop sz)
    (by simp only [List.length_drop, List.length_cons]; omega)

lemma chunks_joinB (sz : Nat) (hsz : 0 < sz) :
    ∀ l : List (List Nat), (∀ x ∈ l, x.length = sz) →
      chunks sz (joinB l) = l := by
  intro l
  induction l with
  | nil => intro _; simp [joinB, chunks_nil]
  | cons x xs ih =>
    intro h
    have hx : x.length = sz := h x (List.mem_cons_self x xs)
    have hxs : ∀ y ∈ xs, y.length = sz := fun y hy => h y (List.mem_cons_of_mem x hy)
    have hxne : x ≠ [] := by
      intro hcon
      rw [hcon] at hx
      simp at hx
      omega
    obtain ⟨a, t, rfl⟩ := List.exists_cons_of_ne_nil hxne
    rw [joinB, List.cons_append, chunks_cons sz _ _ (by omega)]
    rw [← List.cons_append, List.take_left' hx, List.drop_left' hx, ih hxs]

lemma chunks_replicate (sz c : Nat) (hsz : 0 < sz) :
    chunks sz (List.replicate (c * sz) 0) =
      List.replicate c (List.replicate sz 0) := by
  rw [← joinB_replicate c sz]
  exact chunks_joinB sz hsz _ (by
    intro x hx
    rw [List.eq_of_mem_replicate hx]
    simp)

lemma chunks_length (sz : Nat) (hsz : 0 < sz) :
    ∀ bytes : List Nat, bytes.length % sz = 0 →
      (chunks sz bytes).length = bytes.length / sz := by
  have H : ∀ n, ∀ bytes : List Nat, bytes.length = n → bytes.length % sz = 0 →
      (chunks sz bytes).length = bytes.length / sz := by
    intro n
    induction n using Nat.strong_induction_on with
    | _ n ih =>
      intro bytes hlen hmod
      cases bytes with
      | nil => simp [chunks_nil]
      | cons b bs =>
        rw [chunks_cons sz b bs (by omega)]
        have hge : sz ≤ (b :: bs).length :=
          Nat.le_of_dvd (by simp) (Nat.dvd_of_mod_eq_zero hmod)
        have hdroplen : ((b :: bs).drop sz).length = (b :: bs).length - sz := by
          simp
        have hdropmod : ((b :: bs).drop sz).length % sz = 0 := by
          rw [hdroplen]
          exact Nat.mod_eq_zero_of_dvd
            (Nat.dvd_sub' (Nat.dvd_of_mod_eq_zero hmod) dvd_rfl)
        rw [List.length_cons, ih ((b :: bs).drop sz).length
          (by rw [hdroplen]; omega) _ rfl hdropmod, hdroplen]
        rw [Nat.div_eq_sub_div hsz hge]
  intro bytes
  exact H bytes.length bytes rfl

lemma chunks_all_length (sz : Nat) (hsz : 0 < sz) :
    ∀ bytes : List Nat, bytes.length % sz = 0 →
      ∀ x ∈ chunks sz bytes, x.length = sz := by
  have H : ∀ n, ∀ bytes : List Nat, bytes.length = n → bytes.length % sz = 0 →
      ∀ x ∈ chunks sz bytes, x.length = sz := by
    intro n
    induction n using Nat.strong_induction_on with
    | _ n ih =>
      intro bytes hlen hmod x hx
      cases bytes with
      | nil => rw [chunks_nil] at hx; simp at hx
      | cons b bs =>
        rw [chunks_cons sz b bs (by omega)] at hx
        have hge : sz ≤ (b :: bs).length :=
          Nat.le_of_dvd (by simp) (Nat.dvd_of_mod_eq_zero hmod)
        rcases List.mem_cons.mp hx with h1 | h2
        · rw [h1, List.length_take]
          omega
        · have hdroplen : ((b :: bs).drop sz).length = (b :: bs).length - sz := by
            simp
          exact ih ((b :: bs).drop sz).length (by rw [hdroplen]; omega) _ rfl
            (by rw [hdroplen]
                exact Nat.mod_eq_zero_of_dvd
                  (Nat.dvd_sub' (Nat.dvd_of_mod_eq_zero hmod) dvd_rfl)) x h2
  intro bytes
  exact H bytes.length bytes rfl

lemma getD_set (v d : List Nat) :
    ∀ (els : List (List Nat)) (j i : Nat), j < els.length →
      (els.set j v).getD i d = if j = i then v else els.getD i d := by
  intro els
  induction els with
  | nil => intro j i hj; simp at hj
  | cons a t ih =>
    intro j i hj
    cases j with
    | zero =>
      cases i with
      | zero => simp [List.set]
      | succ k => simp [List.set]
    | succ m =>
      cases i with
      | zero => simp [List.set]
      | succ k =>
        simp only [List.set, List.getD_cons_succ]
        rw [ih m k (by simpa using hj)]
        simp [Nat.succ_inj]

lemma getD_replicate (x d : List Nat) :
    ∀ (c i : Nat), i < c → (List.replicate c x).getD i d = x := by
  intro c
  induction c with
  | zero => intro i hi; omega
  | succ m ih =>
    intro i hi
    cases i with
    | zero => simp [List.replicate_succ]
    | succ k =>
      rw [List.replicate_succ, List.getD_cons_succ]
      exact ih k (by omega)

lemma elsApply_nil (els : List (List Nat)) : elsApply [] els = els := rfl

lemma elsApply_cons (w : Nat × List Nat) (ws : List (Nat × List Nat))
    (els : List (List Nat)) :
    elsApply (w :: ws) els = elsApply ws (els.set w.1 w.2) := rfl

lemma elsApply_length :
    ∀ (ws : List (Nat × List Nat)) (els : List (List Nat)),
      (elsApply ws els).length = els.length := by
  intro ws
  induction ws with
  | nil => intro els; rfl
  | cons w rest ih =>
    intro els
    rw [elsApply_cons, ih, List.length_set]

lemma elsApply_all_length (sz : Nat) :
    ∀ (ws : List (Nat × List Nat)) (els : List (List Nat)),
      (∀ x ∈ els, x.length = sz) → (∀ w ∈ ws, w.2.length = sz) →
      ∀ x ∈ elsApply ws els, x.length = sz := by
  intro ws
  induction ws with
  | nil => intro els h _; exact h
  | cons w rest ih =>
    intro els hels hws
    rw [elsApply_cons]
    refine ih _ ?_ (fun u hu => hws u (List.mem_cons_of_mem w hu))
    intro x hx
    rcases List.mem_or_eq_of_mem_set hx with h1 | h2
    · exact hels x h1
    · rw [h2]; exact hws w (List.mem_cons_self w rest)

lemma elsApply_getD (i : Nat) :
    ∀ (ws : List (Nat × List Nat)) (els : List (List Nat)),
      (∀ w ∈ ws, w.1 < els.length) →
      (elsApply ws els).getD i [] =
        ws.foldl (fun a w => if w.1 = i then w.2 else a) (els.getD i []) := by
  intro ws
  induction ws with
  | nil => intro els _; rfl
  | cons w rest ih =>
    intro els hws
    rw [elsApply_cons, List.foldl_cons]
    rw [ih (els.set w.1 w.2) (by
      intro u hu
      rw [List.length_set]
      exact hws u (List.mem_cons_of_mem w hu))]
    rw [getD_set _ _ _ _ _ (hws w (List.mem_cons_self w rest))]

lemma lastWritten_getD (i : Nat) (z : List Nat) :
    ∀ (ws : List (Nat × List Nat)) (acc : Option (List Nat)),
      (ws.foldl (fun acc w => if w.1 = i then some w.2 else acc) acc).getD z =
        ws.foldl (fun a w => if w.1 = i then w.2 else a) (acc.getD z) := by
  intro ws
  induction ws with
  | nil => intro acc; rfl
  | cons w rest ih =>
    intro acc
    rw [List.foldl_cons, List.foldl_cons, ih]
    by_cases h : w.1 = i
    · simp [h]
    · simp [h]

lemma FS.read_write_self (fs : FS) (p : String) (bs : List Nat) :
    (fs.write p bs).read p = some bs := by
  simp [FS.read, FS.write, List.find?]

lemma FS.isLocked_write (fs : FS) (p q : String) (bs : List Nat) :
    (fs.write p bs).isLocked q = fs.isLocked q := rfl

lemma FS.files_lock (fs : FS) (p : String) : (fs.lock p).files = fs.files := rfl

lemma FS.files_unlock (fs : FS) (p : String) :
    (fs.unlock p).files = fs.files := rfl

lemma FS.read_lock (fs : FS) (p q : String) : (fs.lock p).read q = fs.read q :=
  rfl

lemma FS.read_unlock (fs : FS) (p q : String) :
    (fs.unlock p).read q = fs.read q := rfl

lemma FS.isLocked_lock_self (fs : FS) (p : String) :
    (fs.lock p).isLocked p = true := by
  simp [FS.isLocked, FS.lock]

lemma FS.isLocked_unlock_self (fs : FS) (p : String) :
    (fs.unlock p).isLocked p = false := by
  simp [FS.isLocked, FS.unlock, List.mem_filter]

lemma new_eq_zero (sz cap : Nat) (fs : FS) (path : String) (junk : Nat → Nat)
    (hz : usizeMul cap sz = 0) :
    new sz cap fs path junk = .error .creationFailure := by
  show (if usizeMul cap sz = 0 then Except.error BufError.creationFailure
    else _) = _
  rw [if_pos hz]

lemma new_eq (sz cap : Nat) (fs : FS) (path : String) (junk : Nat → Nat)
    (hpos : usizeMul cap sz ≠ 0) :
    new sz cap fs path junk =
      fromFile sz (fs.write path (List.replicate (usizeMul cap sz) 0)) path
        (List.replicate (usizeMul cap sz) 0) := by
  have hcontent :
      writeAt ((List.range (usizeMul cap sz)).map junk) 0
          (zeroFill (usizeMul cap sz)) =
        List.replicate (usizeMul cap sz) 0 := by
    rw [zeroFill_eq]
    exact writeAt_zero _ _ (by simp)
  show (if usizeMul cap sz = 0 then Except.error BufError.creationFailure
    else fromFile sz
      (fs.write path (writeAt ((List.range (usizeMul cap sz)).map junk) 0
        (zeroFill (usizeMul cap sz)))) path
      (writeAt ((List.range (usizeMul cap sz)).map junk) 0
        (zeroFill (usizeMul cap sz)))) = _
  rw [if_neg hpos, hcontent]

lemma new_eq_ok (sz cap : Nat) (fs : FS) (path : String) (junk : Nat → Nat)
    (hlock : fs.isLocked path = false) (hwrap : cap * sz < USIZE)
    (hpos : 0 < cap * sz) :
    new sz cap fs path junk =
      .ok ({ mmap := List.replicate (cap * sz) 0, filePath := path },
        (fs.write path (List.replicate (cap * sz) 0)).lock path) := by
  have hmul : usizeMul cap sz = cap * sz := Nat.mod_eq_of_lt hwrap
  rw [new_eq sz cap fs path junk (by rw [hmul]; omega), hmul]
  unfold fromFile
  rw [FS.isLocked_write, hlock]
  simp [castSlice, Nat.mul_mod_left]

lemma load_eq_ok (sz : Nat) (fs : FS) (path : String) (bytes : List Nat)
    (hread : fs.read path = some bytes) (hlock : fs.isLocked path = false)
    (hmod : bytes.length % sz = 0) :
    load sz fs path =
      .ok ({ mmap := bytes, filePath := path }, fs.lock path) := by
  unfold load
  rw [hread]
  unfold fromFile
  rw [hlock]
  simp [castSlice, hmod]

lemma load_eq_layoutMismatch (sz : Nat) (fs : FS) (path : String)
    (bytes : List Nat) (hread : fs.read path = some bytes)
    (hlock : fs.isLocked path = false) (hmod : bytes.length % sz ≠ 0) :
    load sz fs path = .error .layoutMismatch := by
  unfold load
  rw [hread]
  unfold fromFile
  rw [hlock]
  simp [castSlice, hmod]

lemma load_eq_lockUnavailable (sz : Nat) (fs : FS) (path : String)
    (bytes : List Nat) (hread : fs.read path = some bytes)
    (hlock : fs.isLocked path = true) :
    load sz fs path = .error .lockUnavailable := by
  unfold load
  rw [hread]
  unfold fromFile
  rw [hlock]
  simp

lemma fromFile_ok_inv (sz : Nat) (fs : FS) (path : String) (bytes : List Nat)
    (buf : BackedBuffer) (fs1 : FS)
    (h : fromFile sz fs path bytes = .ok (buf, fs1)) :
    buf.mmap = bytes ∧ buf.filePath = path ∧ fs.isLocked path = false ∧
      bytes.length % sz = 0 ∧ fs1 = fs.lock path := by
  unfold fromFile at h
  by_cases hl : fs.isLocked path
  · rw [hl] at h
    simp at h
  · rw [Bool.not_eq_true] at hl
    rw [hl] at h
    simp only [Bool.false_eq_true, if_false] at h
    unfold castSlice at h
    by_cases hm : bytes.length % sz = 0
    · rw [if_pos hm] at h
      simp only [Except.ok.injEq, Prod.mk.injEq] at h
      obtain ⟨hbuf, hfs1⟩ := h
      rw [← hbuf]
      exact ⟨rfl, rfl, hl, hm, hfs1.symm⟩
    · rw [if_neg hm] at h
      simp at h

lemma load_ok_inv (sz : Nat) (fs : FS) (path : String) (buf : BackedBuffer)
    (fs1 : FS) (h : load sz fs path = .ok (buf, fs1)) :
    fs.read path = some buf.mmap ∧ buf.filePath = path ∧
      fs.isLocked path = false ∧ buf.mmap.length % sz = 0 ∧
      fs1 = fs.lock path := by
  unfold load at h
  cases hread : fs.read path with
  | none => rw [hread] at h; simp at h
  | some bytes =>
    rw [hread] at h
    obtain ⟨h1, h2, h3, h4, h5⟩ := fromFile_ok_inv sz fs path bytes buf fs1 h
    rw [h1]
    exact ⟨rfl, h2, h3, h4, h5⟩

lemma new_ok_inv (sz cap : Nat) (fs : FS) (path : String) (junk : Nat → Nat)
    (buf : BackedBuffer) (fs1 : FS)
    (h : new sz cap fs path junk = .ok (buf, fs1)) :
    buf.mmap.length % sz = 0 ∧ buf.filePath = path := by
  by_cases hz : usizeMul cap sz = 0
  · rw [new_eq_zero sz cap fs path junk hz] at h
    exact absurd h (by simp)
  · rw [new_eq sz cap fs path junk hz] at h
    obtain ⟨h1, h2, _, h4, _⟩ := fromFile_ok_inv sz _ path _ buf fs1 h
    rw [← h1] at h4
    exact ⟨h4, h2⟩

lemma copyFromSlice_ok_inv (sz : Nat) (slice : List (List Nat)) (fs : FS)
    (path : String) (junk : Nat → Nat) (buf : BackedBuffer) (fs1 : FS)
    (h : copyFromSlice sz slice fs path junk = .ok (buf, fs1)) :
    buf.mmap = joinB slice ∧
      ∃ buf0 : BackedBuffer,
        new sz slice.length fs path junk = .ok (buf0, fs1) ∧
          buf.filePath = buf0.filePath := by
  unfold copyFromSlice at h
  cases hnew : new sz slice.length fs path junk with
  | error e => rw [hnew] at h; simp at h
  | ok r =>
    rw [hnew] at h
    simp only [Except.ok.injEq, Prod.mk.injEq] at h
    obtain ⟨hbuf, hfs1⟩ := h
    rw [← hbuf]
    exact ⟨rfl, r.1, by rw [← hfs1], rfl⟩

lemma setIndex_filePath (sz : Nat) (buf : BackedBuffer) (i : Nat)
    (v : List Nat) : (setIndex sz buf i v).filePath = buf.filePath := rfl

lemma applyWrites_filePath (sz : Nat) :
    ∀ (ws : List (Nat × List Nat)) (buf : BackedBuffer),
      (applyWrites sz ws buf).filePath = buf.filePath := by
  intro ws
  induction ws with
  | nil => intro buf; rfl
  | cons w rest ih =>
    intro buf
    show (applyWrites sz rest (setIndex sz buf w.1 w.2)).filePath = _
    rw [ih]
    rfl

lemma applyWrites_mmap (sz : Nat) (hsz : 0 < sz) :
    ∀ (ws : List (Nat × List Nat)) (els : List (List Nat))
      (buf : BackedBuffer), buf.mmap = joinB els →
      (∀ x ∈ els, x.length = sz) → (∀ w ∈ ws, w.2.length = sz) →
      (applyWrites sz ws buf).mmap = joinB (elsApply ws els) := by
  intro ws
  induction ws with
  | nil => intro els buf hbuf _ _; exact hbuf
  | cons w rest ih =>
    intro els buf hbuf hels hws
    show (applyWrites sz rest (setIndex sz buf w.1 w.2)).mmap = _
    rw [elsApply_cons]
    refine ih (els.set w.1 w.2) _ ?_ ?_
      (fun u hu => hws u (List.mem_cons_of_mem w hu))
    · show joinB ((chunks sz buf.mmap).set w.1 w.2) = _
      rw [hbuf, chunks_joinB sz hsz els hels]
    · intro x hx
      rcases List.mem_or_eq_of_mem_set hx with h1 | h2
      · exact hels x h1
      · rw [h2]; exact hws w (List.mem_cons_self w rest)

lemma applyWritesB_memory (sz : Nat) :
    ∀ (ws : List (Nat × List Nat)) (m : List (List Nat)),
      Buffer.applyWritesB sz ws (.memory m) = .memory (elsApply ws m) := by
  intro ws
  induction ws with
  | nil => intro m; rfl
  | cons w rest ih =>
    intro m
    show Buffer.applyWritesB sz rest (Buffer.setIndexB sz (.memory m) w.1 w.2) = _
    rw [elsApply_cons]
    exact ih (m.set w.1 w.2)

lemma applyWritesB_disk (sz : Nat) :
    ∀ (ws : List (Nat × List Nat)) (b : BackedBuffer),
      Buffer.applyWritesB sz ws (.disk b) = .disk (applyWrites sz ws b) := by
  intro ws
  induction ws with
  | nil => intro b; rfl
  | cons w rest ih =>
    intro b
    show Buffer.applyWritesB sz rest (Buffer.setIndexB sz (.disk b) w.1 w.2) = _
    exact ih (setIndex sz b w.1 w.2)

end Lemmas

/-- C1: for every positive capacity `C` (with `C * size_of(T)` representable
in `usize`; capacity 0 is settled by C9), `BackedBuffer::new(C, path)`
succeeds and produces a buffer of exactly `C` elements, each equal to the
zero value of `T`, and leaves the backing file with byte length exactly
`C * size_of(T)`: the file is truncated, extended via `allocate` (with
arbitrary `junk` content), and explicitly overwritten with zero bytes in
fixed-size blocks. -/
theorem C1_zero_fill_on_create (sz cap : Nat) (hsz : 0 < sz)
    (hcap : 0 < cap) (fs : FS) (path : String) (junk : Nat → Nat)
    (hlock : fs.isLocked path = false) (hwrap : cap * sz < USIZE) :
    ∃ buf fs1, new sz cap fs path junk = .ok (buf, fs1) ∧
      (derefBB sz buf).length = cap ∧
      (∀ x ∈ derefBB sz buf, x = List.replicate sz 0) ∧
      fs1.read path = some buf.mmap ∧ buf.mmap.length = cap * sz := by
  refine ⟨_, _, new_eq_ok sz cap fs path junk hlock hwrap
    (Nat.mul_pos hcap hsz), ?_, ?_, ?_, ?_⟩
  · show (chunks sz (List.replicate (cap * sz) 0)).length = cap
    rw [chunks_replicate sz cap hsz, List.length_replicate]
  · show ∀ x ∈ chunks sz (List.replicate (cap * sz) 0), x = List.replicate sz 0
    rw [chunks_replicate sz cap hsz]
    intro x hx
    exact List.eq_of_mem_replicate hx
  · show ((fs.write path (List.replicate (cap * sz) 0)).lock path).read path =
      some (List.replicate (cap * sz) 0)
    rw [FS.read_lock, FS.read_write_self]
  · simp

/-- Witness for C1 at `T = i16` (size 2), capacity 3, an empty filesystem. -/
theorem C1_witness :
    ∃ buf fs1, new 2 3 ⟨[], []⟩ "p" (fun _ => 7) = .ok (buf, fs1) ∧
      (derefBB 2 buf).length = 3 ∧
      (∀ x ∈ derefBB 2 buf, x = List.replicate 2 0) ∧
      fs1.read "p" = some buf.mmap ∧ buf.mmap.length = 3 * 2 :=
  C1_zero_fill_on_create 2 3 (by decide) (by decide) ⟨[], []⟩ "p"
    (fun _ => 7) (by decide) (by decide)

/-- C3: loading a file whose byte length is not a multiple of `size_of(T)`
fails with LayoutMismatch; when the byte length is an exact multiple, `load`
succeeds, the element count is `file length / size_of(T)`, and the buffer
exposes the file's existing bytes verbatim without modifying the files. -/
theorem C3_layout_rejection (sz : Nat) (hsz : 0 < sz) (fs : FS)
    (path : String) (bytes : List Nat) (hread : fs.read path = some bytes)
    (hlock : fs.isLocked path = false) :
    (bytes.length % sz ≠ 0 → load sz fs path = .error .layoutMismatch) ∧
    (bytes.length % sz = 0 →
      ∃ buf fs1, load sz fs path = .ok (buf, fs1) ∧ buf.mmap = bytes ∧
        (derefBB sz buf).length = bytes.length / sz ∧
        fs1.files = fs.files) := by
  constructor
  · intro hmod
    exact load_eq_layoutMismatch sz fs path bytes hread hlock hmod
  · intro hmod
    refine ⟨_, _, load_eq_ok sz fs path bytes hread hlock hmod, rfl, ?_, rfl⟩
    show (chunks sz bytes).length = bytes.length / sz
    exact chunks_length sz hsz bytes hmod

/-- Witness for C3 on a 3-byte file with `T = i16` (size 2). -/
theorem C3_witness :
    (([1, 2, 3] : List Nat).length % 2 ≠ 0 →
      load 2 ⟨[("p", [1, 2, 3])], []⟩ "p" = .error .layoutMismatch) ∧
    (([1, 2, 3] : List Nat).length % 2 = 0 →
      ∃ buf fs1, load 2 ⟨[("p", [1, 2, 3])], []⟩ "p" = .ok (buf, fs1) ∧
        buf.mmap = [1, 2, 3] ∧
        (derefBB 2 buf).length = ([1, 2, 3] : List Nat).length / 2 ∧
        fs1.files = (⟨[("p", [1, 2, 3])], []⟩ : FS).files) :=
  C3_layout_rejection 2 (by decide) ⟨[("p", [1, 2, 3])], []⟩ "p" [1, 2, 3]
    (by decide) (by decide)

/-- C5 counterexample: for a locked path whose file length (3 bytes) is not
a multiple of `size_of(T)` (2), `load` reports LockUnavailable, not the
validation error: the source acquires the lock before mapping and
validating, contradicting the claimed open-map-validate-lock order. -/
theorem C5_counterexample :
    load 2 ⟨[("p", [1, 2, 3])], ["p"]⟩ "p" = .error .lockUnavailable ∧
      load 2 ⟨[("p", [1, 2, 3])], ["p"]⟩ "p" ≠ .error .layoutMismatch := by
  have hres : load 2 ⟨[("p", [1, 2, 3])], ["p"]⟩ "p" =
      .error .lockUnavailable := rfl
  refine ⟨hres, ?_⟩
  rw [hres]
  intro hcon
  exact BufError.noConfusion (Except.error.inj hcon)

/-- C5 (amended): `load` opens the file read+write without resizing, then
acquires the non-blocking exclusive advisory lock, and only then maps the
file's current full length and runs safe-cast validation; consequently,
loading a file whose length is not a multiple of `size_of(T)` fails with
LockUnavailable (not the validation error) when the lock is unavailable,
and with LayoutMismatch when the lock is free. -/
theorem C5_lock_before_validate (sz : Nat) (fs : FS) (path : String)
    (bytes : List Nat) (hread : fs.read path = some bytes) :
    (fs.isLocked path = true → load sz fs path = .error .lockUnavailable) ∧
    (fs.isLocked path = false → bytes.length % sz ≠ 0 →
      load sz fs path = .error .layoutMismatch) := by
  constructor
  · exact load_eq_lockUnavailable sz fs path bytes hread
  · exact load_eq_layoutMismatch sz fs path bytes hread

/-- Witness for the amended C5 on a 3-byte file with `T = i16` (size 2). -/
theorem C5_witness :
    ((⟨[("p", [1, 2, 3])], ["p"]⟩ : FS).isLocked "p" = true →
      load 2 ⟨[("p", [1, 2, 3])], ["p"]⟩ "p" = .error .lockUnavailable) ∧
    ((⟨[("p", [1, 2, 3])], ["p"]⟩ : FS).isLocked "p" = false →
      ([1, 2, 3] : List Nat).length % 2 ≠ 0 →
      load 2 ⟨[("p", [1, 2, 3])], ["p"]⟩ "p" = .error .layoutMismatch) :=
  C5_lock_before_validate 2 ⟨[("p", [1, 2, 3])], ["p"]⟩ "p" [1, 2, 3]
    (by decide)

/-- C2: for any capacity `C > 0` and any sequence of in-bounds
(index, value) writes performed on a buffer created with
`BackedBuffer::new(C, path)`, after destroying the buffer and reloading the
same path with `BackedBuffer::load`, every index below `C` reads back its
last-written value, or the zero value of `T` if it was never written. -/
theorem C2_round_trip (sz cap : Nat) (hsz : 0 < sz) (hcap : 0 < cap)
    (fs : FS) (path : String) (junk : Nat → Nat)
    (hlock : fs.isLocked path = false) (hwrap : cap * sz < USIZE)
    (ws : List (Nat × List Nat))
    (hws : ∀ w ∈ ws, w.1 < cap ∧ w.2.length = sz) :
    ∃ buf fs1 buf2 fs2, new sz cap fs path junk = .ok (buf, fs1) ∧
      load sz (dropBuffer (applyWrites sz ws buf) fs1) path =
        .ok (buf2, fs2) ∧
      ∀ i, i < cap →
        getIndex sz buf2 i = (lastWritten ws i).getD (List.replicate sz 0) := by
  have hnew := new_eq_ok sz cap fs path junk hlock hwrap
    (Nat.mul_pos hcap hsz)
  set buf : BackedBuffer :=
    { mmap := List.replicate (cap * sz) 0, filePath := path } with hbufdef
  set els0 : List (List Nat) :=
    List.replicate cap (List.replicate sz 0) with hels0def
  have hels0 : ∀ x ∈ els0, x.length = sz := by
    intro x hx
    rw [List.eq_of_mem_replicate hx, List.length_replicate]
  have hbufmm : buf.mmap = joinB els0 := by
    rw [hbufdef, hels0def, joinB_replicate]
  have hws2 : ∀ w ∈ ws, w.2.length = sz := fun w hw => (hws w hw).2
  have hmm : (applyWrites sz ws buf).mmap = joinB (elsApply ws els0) :=
    applyWrites_mmap sz hsz ws els0 buf hbufmm hels0 hws2
  have hallW : ∀ x ∈ elsApply ws els0, x.length = sz :=
    elsApply_all_length sz ws els0 hels0 hws2
  have hpathW : (applyWrites sz ws buf).filePath = path :=
    applyWrites_filePath sz ws buf
  have hmodW : (applyWrites sz ws buf).mmap.length % sz = 0 := by
    rw [hmm, joinB_length sz _ hallW]
    exact Nat.mul_mod_left _ _
  have hread2 : (dropBuffer (applyWrites sz ws buf)
      ((fs.write path (List.replicate (cap * sz) 0)).lock path)).read path =
      some (applyWrites sz ws buf).mmap := by
    unfold dropBuffer
    rw [hpathW, FS.read_unlock, FS.read_write_self]
  have hlock2 : (dropBuffer (applyWrites sz ws buf)
      ((fs.write path (List.replicate (cap * sz) 0)).lock path)).isLocked
        path = false := by
    unfold dropBuffer
    rw [hpathW]
    exact FS.isLocked_unlock_self _ _
  refine ⟨buf, _, _, _, hnew,
    load_eq_ok sz _ path (applyWrites sz ws buf).mmap hread2 hlock2 hmodW,
    ?_⟩
  intro i hi
  show (chunks sz (applyWrites sz ws buf).mmap).getD i [] = _
  rw [hmm, chunks_joinB sz hsz _ hallW]
  have hidx : ∀ w ∈ ws, w.1 < els0.length := by
    intro w hw
    rw [hels0def, List.length_replicate]
    exact (hws w hw).1
  rw [elsApply_getD i ws els0 hidx]
  have hz : els0.getD i [] = List.replicate sz 0 := by
    rw [hels0def]
    exact getD_replicate _ _ cap i hi
  rw [hz]
  exact (lastWritten_getD i (List.replicate sz 0) ws none).symm

/-- Witness for C2 at `T = i16` (size 2), capacity 3, writes
`[0 := [1,2], 1 := [3,4], 0 := [5,6]]`. -/
theorem C2_witness :
    ∃ buf fs1 buf2 fs2,
      new 2 3 ⟨[], []⟩ "p" (fun _ => 7) = .ok (buf, fs1) ∧
      load 2 (dropBuffer
        (applyWrites 2 [(0, [1, 2]), (1, [3, 4]), (0, [5, 6])] buf) fs1)
        "p" = .ok (buf2, fs2) ∧
      ∀ i, i < 3 →
        getIndex 2 buf2 i =
          (lastWritten [(0, [1, 2]), (1, [3, 4]), (0, [5, 6])] i).getD
            (List.replicate 2 0) :=
  C2_round_trip 2 3 (by decide) (by decide) ⟨[], []⟩ "p" (fun _ => 7)
    (by decide) (by decide) [(0, [1, 2]), (1, [3, 4]), (0, [5, 6])]
    (by decide)

/-- C4: while a `BackedBuffer` for a path is alive (its successful `load`
acquired the lock), a second `load` on the same path fails with
LockUnavailable, and a `new` on the same path (for any nonzero requested
byte length, so that `allocate` does not reject it first) likewise fails
with LockUnavailable rather than blocking; after the first instance's
`Drop` has run, a subsequent `load` on the same path succeeds. -/
theorem C4_exclusivity (sz cap : Nat) (hbytes : 0 < usizeMul cap sz)
    (fs : FS) (path : String) (buf : BackedBuffer) (fs1 : FS)
    (h : load sz fs path = .ok (buf, fs1)) :
    load sz fs1 path = .error .lockUnavailable ∧
    (∀ junk, new sz cap fs1 path junk = .error .lockUnavailable) ∧
    (∃ buf2 fs2, load sz (dropBuffer buf fs1) path = .ok (buf2, fs2)) := by
  obtain ⟨hread, hpath, hlock, hmod, hfs1⟩ := load_ok_inv sz fs path buf fs1 h
  subst hfs1
  refine ⟨?_, ?_, ?_⟩
  · exact load_eq_lockUnavailable sz _ path buf.mmap
      (by rw [FS.read_lock]; exact hread) (FS.isLocked_lock_self fs path)
  · intro junk
    rw [new_eq sz cap _ path junk (Nat.pos_iff_ne_zero.mp hbytes)]
    unfold fromFile
    rw [FS.isLocked_write, FS.isLocked_lock_self]
    rfl
  · refine ⟨_, _, load_eq_ok sz _ path buf.mmap ?_ ?_ hmod⟩
    · unfold dropBuffer
      rw [hpath, FS.read_unlock, FS.read_write_self]
    · unfold dropBuffer
      rw [hpath]
      exact FS.isLocked_unlock_self _ _

/-- Witness for C4: a live instance on a 2-byte file with `T = i16`. -/
theorem C4_witness :
    load 2 ((⟨[("p", [1, 2])], []⟩ : FS).lock "p") "p" =
        .error .lockUnavailable ∧
    (∀ junk, new 2 1 ((⟨[("p", [1, 2])], []⟩ : FS).lock "p") "p" junk =
        .error .lockUnavailable) ∧
    (∃ buf2 fs2, load 2 (dropBuffer { mmap := [1, 2], filePath := "p" }
        ((⟨[("p", [1, 2])], []⟩ : FS).lock "p")) "p" = .ok (buf2, fs2)) :=
  C4_exclusivity 2 1 (by decide) ⟨[("p", [1, 2])], []⟩ "p"
    { mmap := [1, 2], filePath := "p" }
    ((⟨[("p", [1, 2])], []⟩ : FS).lock "p") rfl

/-- C6: for every nonempty slice of length `N` (of `sz`-byte element
patterns; the empty slice requests a zero-length `allocate`, settled by C9)
and every path, `BackedBuffer::copy_from_slice(s, path)` yields a buffer
whose length equals `N` and whose contents equal `s` element-for-element,
and it is exactly `new(N, path)` followed by copying `s` over the new
buffer's mutable view. -/
theorem C6_copy_from_slice_into_new (sz : Nat) (hsz : 0 < sz)
    (slice : List (List Nat)) (hlen : 0 < slice.length) (fs : FS)
    (path : String) (junk : Nat → Nat) (hlock : fs.isLocked path = false)
    (hwrap : slice.length * sz < USIZE)
    (hall : ∀ v ∈ slice, v.length = sz) :
    ∃ buf buf0 fs1, copyFromSlice sz slice fs path junk = .ok (buf, fs1) ∧
      new sz slice.length fs path junk = .ok (buf0, fs1) ∧
      buf = { buf0 with mmap := joinB slice } ∧
      derefBB sz buf = slice ∧ (derefBB sz buf).length = slice.length := by
  have hnew := new_eq_ok sz slice.length fs path junk hlock hwrap
    (Nat.mul_pos hlen hsz)
  have hchunks : chunks sz (joinB slice) = slice :=
    chunks_joinB sz hsz slice hall
  refine ⟨_, _, _, ?_, hnew, rfl, ?_, ?_⟩
  · unfold copyFromSlice
    rw [hnew]
  · exact hchunks
  · show (chunks sz (joinB slice)).length = slice.length
    rw [hchunks]

/-- Witness for C6 at `T = i16` (size 2) and the slice `[[9,8],[7,6]]`. -/
theorem C6_witness :
    ∃ buf buf0 fs1,
      copyFromSlice 2 [[9, 8], [7, 6]] ⟨[], []⟩ "q" (fun _ => 3) =
        .ok (buf, fs1) ∧
      new 2 ([[9, 8], [7, 6]] : List (List Nat)).length ⟨[], []⟩ "q"
        (fun _ => 3) = .ok (buf0, fs1) ∧
      buf = { buf0 with mmap := joinB [[9, 8], [7, 6]] } ∧
      derefBB 2 buf = [[9, 8], [7, 6]] ∧
      (derefBB 2 buf).length = ([[9, 8], [7, 6]] : List (List Nat)).length :=
  C6_copy_from_slice_into_new 2 (by decide) [[9, 8], [7, 6]] (by decide)
    ⟨[], []⟩ "q" (fun _ => 3) (by decide) (by decide) (by decide)

/-- C7: a `Buffer` constructed with `new_in_memory(C)` and one constructed
with `new_on_disk(C, path)` produce identical observable read results under
every equal sequence of in-bounds element writes, and the `AsRef` view
dispatches identically to the `Deref` view on both variants. -/
theorem C7_variant_parity (sz cap : Nat) (hsz : 0 < sz) (hcap : 0 < cap)
    (fs : FS) (path : String) (junk : Nat → Nat)
    (hlock : fs.isLocked path = false)
    (hwrap : cap * sz < USIZE) (ws : List (Nat × List Nat))
    (hws : ∀ w ∈ ws, w.1 < cap ∧ w.2.length = sz) :
    (∃ b fs1, Buffer.newOnDisk sz cap fs path junk = .ok (b, fs1) ∧
      Buffer.deref sz (Buffer.applyWritesB sz ws b) =
        Buffer.deref sz
          (Buffer.applyWritesB sz ws (Buffer.newInMemory sz cap))) ∧
    (∀ b : Buffer, Buffer.asRefView sz b = Buffer.deref sz b) := by
  constructor
  · set buf : BackedBuffer :=
      { mmap := List.replicate (cap * sz) 0, filePath := path } with hbufdef
    set els0 : List (List Nat) :=
      List.replicate cap (List.replicate sz 0) with hels0def
    have hels0 : ∀ x ∈ els0, x.length = sz := by
      intro x hx
      rw [List.eq_of_mem_replicate hx, List.length_replicate]
    have hws2 : ∀ w ∈ ws, w.2.length = sz := fun w hw => (hws w hw).2
    have hmm : (applyWrites sz ws buf).mmap = joinB (elsApply ws els0) :=
      applyWrites_mmap sz hsz ws els0 buf
        (by rw [hbufdef, hels0def, joinB_replicate]) hels0 hws2
    have hallW : ∀ x ∈ elsApply ws els0, x.length = sz :=
      elsApply_all_length sz ws els0 hels0 hws2
    refine ⟨.disk buf,
      (fs.write path (List.replicate (cap * sz) 0)).lock path, ?_, ?_⟩
    · unfold Buffer.newOnDisk
      rw [new_eq_ok sz cap fs path junk hlock hwrap (Nat.mul_pos hcap hsz)]
    · rw [applyWritesB_disk, Buffer.newInMemory, applyWritesB_memory]
      show chunks sz (applyWrites sz ws buf).mmap = elsApply ws els0
      rw [hmm, chunks_joinB sz hsz _ hallW]
  · intro b
    cases b with
    | disk b0 => rfl
    | memory v => rfl

/-- Witness for C7 at `T = i16` (size 2), capacity 3, writes
`[0 := [1,2], 1 := [3,4]]`. -/
theorem C7_witness :
    (∃ b fs1, Buffer.newOnDisk 2 3 ⟨[], []⟩ "p" (fun _ => 7) =
        .ok (b, fs1) ∧
      Buffer.deref 2 (Buffer.applyWritesB 2 [(0, [1, 2]), (1, [3, 4])] b) =
        Buffer.deref 2 (Buffer.applyWritesB 2 [(0, [1, 2]), (1, [3, 4])]
          (Buffer.newInMemory 2 3))) ∧
    (∀ b : Buffer, Buffer.asRefView 2 b = Buffer.deref 2 b) :=
  C7_variant_parity 2 3 (by decide) (by decide) ⟨[], []⟩ "p" (fun _ => 7)
    (by decide) (by decide) [(0, [1, 2]), (1, [3, 4])] (by decide)

/-- C8: every `BackedBuffer` obtained from `new`, `load`, or
`copy_from_slice` has a mapping byte length that is an exact multiple of the
element size; element writes preserve this invariant (capacity is
immutable); and whenever the invariant holds, the re-validation done on
every `Deref`/`DerefMut` access succeeds, so the `unwrap` panic branch is
unreachable after successful construction. -/
theorem C8_cast_invariant (sz : Nat) (hsz : 0 < sz) :
    (∀ cap fs path junk buf fs1,
      new sz cap fs path junk = .ok (buf, fs1) →
        buf.mmap.length % sz = 0) ∧
    (∀ fs path buf fs1, load sz fs path = .ok (buf, fs1) →
      buf.mmap.length % sz = 0) ∧
    (∀ slice fs path junk buf fs1, (∀ v ∈ slice, v.length = sz) →
      copyFromSlice sz slice fs path junk = .ok (buf, fs1) →
        buf.mmap.length % sz = 0) ∧
    (∀ buf i v, buf.mmap.length % sz = 0 → v.length = sz →
      (setIndex sz buf i v).mmap.length % sz = 0) ∧
    (∀ buf, buf.mmap.length % sz = 0 →
      derefChecked sz buf = some (derefBB sz buf)) := by
  refine ⟨?_, ?_, ?_, ?_, ?_⟩
  · intro cap fs path junk buf fs1 h
    exact (new_ok_inv sz cap fs path junk buf fs1 h).1
  · intro fs path buf fs1 h
    obtain ⟨_, _, _, h4, _⟩ := load_ok_inv sz fs path buf fs1 h
    exact h4
  · intro slice fs path junk buf fs1 hall h
    obtain ⟨h1, _, _, _⟩ := copyFromSlice_ok_inv sz slice fs path junk buf fs1 h
    rw [h1, joinB_length sz slice hall]
    exact Nat.mul_mod_left _ _
  · intro buf i v hmod hv
    show (joinB ((chunks sz buf.mmap).set i v)).length % sz = 0
    rw [joinB_length sz _ (by
      intro x hx
      rcases List.mem_or_eq_of_mem_set hx with h1 | h2
      · exact chunks_all_length sz hsz buf.mmap hmod x h1
      · rw [h2]; exact hv)]
    exact Nat.mul_mod_left _ _
  · intro buf hmod
    unfold derefChecked castSlice derefBB
    rw [if_pos hmod]

/-- Witness for C8 at `T = i16` (size 2) and a 4-byte mapping. -/
theorem C8_witness :
    derefChecked 2 { mmap := [1, 2, 3, 4], filePath := "p" } =
      some (derefBB 2 { mmap := [1, 2, 3, 4], filePath := "p" }) :=
  (C8_cast_invariant 2 (by decide)).2.2.2.2
    { mmap := [1, 2, 3, 4], filePath := "p" } (by decide)

/-- C9 counterexample: `BackedBuffer::new(0, path)` does not succeed: the
wrapped byte length is 0, and `allocate` (`posix_fallocate` on the modelled
platform) deterministically rejects a zero length with EINVAL, so `new`
returns a creation error instead of a zero-length buffer. -/
theorem C9_counterexample :
    new 2 0 ⟨[], []⟩ "p" (fun _ => 7) = .error .creationFailure := rfl

/-- C9 (amended): creating a zero-capacity buffer fails with a creation
error (the `allocate` call requests length 0, which `posix_fallocate`
rejects with EINVAL) rather than succeeding; loading an empty file does
succeed — the zero-length mapping passes cast validation and the resulting
slice view is empty. -/
theorem C9_zero_capacity (sz : Nat) (fs : FS) (path : String)
    (junk : Nat → Nat) :
    new sz 0 fs path junk = .error .creationFailure ∧
    (∀ fs2 path2, fs2.read path2 = some [] → fs2.isLocked path2 = false →
      ∃ buf fs3, load sz fs2 path2 = .ok (buf, fs3) ∧
        derefBB sz buf = []) := by
  constructor
  · exact new_eq_zero sz 0 fs path junk (by simp [usizeMul])
  · intro fs2 path2 hread hlock2
    exact ⟨_, _, load_eq_ok sz fs2 path2 [] hread hlock2 (by simp), rfl⟩

/-- Witness for the amended C9 at `T = i16` (size 2): the create half at a
concrete state, and the load half at a concrete empty file. -/
theorem C9_witness :
    new 2 0 ⟨[], []⟩ "q" (fun _ => 7) = .error .creationFailure ∧
      ∃ buf fs3, load 2 ⟨[("q", [])], []⟩ "q" = .ok (buf, fs3) ∧
        derefBB 2 buf = [] :=
  ⟨(C9_zero_capacity 2 ⟨[], []⟩ "q" (fun _ => 7)).1,
    (C9_zero_capacity 2 ⟨[], []⟩ "q" (fun _ => 7)).2 ⟨[("q", [])], []⟩ "q"
      (by decide) (by decide)⟩

/-- C10: `BackedBuffer::new` computes the requested byte length as
`capacity * size_of(T)` with the unchecked native (wrapping) `usize`
multiplication and no overflow guard: whenever construction succeeds the
mapping's byte length is exactly `(capacity * size_of(T)) % 2 ^ 64`, which
equals the true product whenever that product is at most `usize::MAX`, and
no error outcome of `new` is an overflow rejection — errors arise only from
the lock, from cast validation, or from `allocate`'s rejection of a zero
requested length, which depends only on the already-wrapped value (capacity
0 triggers it identically) and not on whether the true product exceeded
`usize::MAX`. -/
theorem C10_unchecked_multiplication (sz cap : Nat) (fs : FS) (path : String)
    (junk : Nat → Nat) :
    (∀ buf fs1, new sz cap fs path junk = .ok (buf, fs1) →
      buf.mmap.length = (cap * sz) % USIZE) ∧
    (cap * sz ≤ USIZE - 1 →
      ∀ buf fs1, new sz cap fs path junk = .ok (buf, fs1) →
        buf.mmap.length = cap * sz) ∧
    (∀ e, new sz cap fs path junk = .error e →
      e = .lockUnavailable ∨ e = .layoutMismatch ∨
        (e = .creationFailure ∧ (cap * sz) % USIZE = 0)) := by
  have hlen : ∀ buf fs1, new sz cap fs path junk = .ok (buf, fs1) →
      buf.mmap.length = (cap * sz) % USIZE := by
    intro buf fs1 h
    by_cases hz : usizeMul cap sz = 0
    · rw [new_eq_zero sz cap fs path junk hz] at h
      exact absurd h (by simp)
    · rw [new_eq sz cap fs path junk hz] at h
      obtain ⟨h1, _, _, _, _⟩ := fromFile_ok_inv sz _ path _ buf fs1 h
      rw [h1, List.length_replicate]
      rfl
  refine ⟨hlen, ?_, ?_⟩
  · intro hle buf fs1 h
    rw [hlen buf fs1 h]
    exact Nat.mod_eq_of_lt (by
      have : 0 < USIZE := by simp [USIZE]
      omega)
  · intro e h
    by_cases hz : usizeMul cap sz = 0
    · rw [new_eq_zero sz cap fs path junk hz] at h
      right
      right
      exact ⟨(Except.error.inj h).symm, hz⟩
    · rw [new_eq sz cap fs path junk hz] at h
      unfold fromFile at h
      by_cases hl : FS.isLocked (fs.write path
          (List.replicate (usizeMul cap sz) 0)) path
      · rw [if_pos hl] at h
        left
        exact (Except.error.inj h).symm
      · rw [if_neg hl] at h
        unfold castSlice at h
        by_cases hm : (List.replicate (usizeMul cap sz) 0).length % sz = 0
        · rw [if_pos hm] at h
          simp at h
        · rw [if_neg hm] at h
          right
          left
          exact (Except.error.inj h).symm

/-- Witness for C10 at `T = i16` (size 2) and the overflowing capacity
`2 ^ 63 + 1`: the true byte size `2 ^ 64 + 2` exceeds `usize::MAX`, yet
`new` succeeds with the wrapped mapping length
`((2 ^ 63 + 1) * 2) % 2 ^ 64 = 2` — no overflow rejection occurs. -/
theorem C10_witness :
    ({ mmap := [0, 0], filePath := "p" } : BackedBuffer).mmap.length =
      ((2 ^ 63 + 1) * 2) % USIZE :=
  (C10_unchecked_multiplication 2 (2 ^ 63 + 1) ⟨[], []⟩ "p" (fun _ => 7)).1
    { mmap := [0, 0], filePath := "p" } ⟨[("p", [0, 0])], ["p"]⟩ rfl

end MmapBuffer
